import Mathlib

/-!
Verification of the resilient-fetch core of the `shopify_api` crate
(`src/rest/mod.rs`): the fetch pipeline `shopify_rest_query`, the public
entry point `rest_query`, the retry executor and the JSON tree navigator.

The generic JSON tree (`serde_json::Value`) is embedded as the inductive
`Json`; JSON numbers are modelled as integers.  Serialization
(`serde_json::to_string`) and parsing (`serde_json::from_str`) are embedded
as executable Lean functions; the parser is a recursive-descent parser with
an explicit recursion budget (fuel), and the top-level entry point supplies
a budget large enough for any input that parses at all.
-/

namespace ShopifyApi

/-- The generic structured value (`serde_json::Value`).  Numbers are
modelled as integers. -/
inductive Json where
  | null : Json
  | bool (b : Bool) : Json
  | num (n : Int) : Json
  | str (s : String) : Json
  | arr (elems : List Json) : Json
  | obj (entries : List (String × Json)) : Json

/-- One navigation step of `utils::ReadJsonTreeSteps`: move to the value of
a key of a mapping, or to the entry at a 0-based index of a sequence. -/
inductive ReadJsonTreeSteps where
  | Key (k : String)
  | Index (i : Nat)
  deriving DecidableEq

/-- The navigator's failure. -/
inductive JsonTreeError where
  | NotFound
  deriving DecidableEq

/-- First-match lookup of a key in the entry list of a mapping. -/
def lookupKey (k : String) : List (String × Json) → Option Json
  | [] => none
  | (k', v) :: rest => if k' = k then some v else lookupKey k rest

/-- Modelled from the spec: `utils::read_json_tree` (the `utils` module is
not part of the sources at hand).  Steps are applied strictly left to
right; `Key k` requires the current value to be a mapping containing `k`,
`Index i` requires it to be a sequence with an entry at position `i`; the
first failing step aborts with `NotFound`. -/
def read_json_tree : Json → List ReadJsonTreeSteps → Except JsonTreeError Json
  | v, [] => .ok v
  | v, step :: rest =>
    match step, v with
    | .Key k, .obj entries =>
      match lookupKey k entries with
      | some v' => read_json_tree v' rest
      | none => .error .NotFound
    | .Index i, .arr elems =>
      match elems.get? i with
      | some v' => read_json_tree v' rest
      | none => .error .NotFound
    | _, _ => .error .NotFound

/-- Modelled from the spec: the loop of `utils::retry_async` (the `utils`
module is not part of the sources at hand), instrumented with the number of
invocations performed.  `op a` is the outcome of invocation number `a + 1`
(the argument bundle is identical on every attempt; only the outside world
varies).  The second argument is the index of the current attempt, the
third is the number of attempts remaining After the current one. -/
def retryGo {T E : Type} (op : Nat → Except E T) (attempt : Nat) :
    Nat → Except E T × Nat
  | 0 => (op attempt, 1)
  | remaining + 1 =>
    match op attempt with
    | .ok v => (.ok v, 1)
    | .error _ =>
      let p := retryGo op (attempt + 1) remaining
      (p.1, p.2 + 1)

/-- Modelled from the spec: `utils::retry_async` — invoke `op` up to
`maxAttempts` times, returning the first success or the error of the final
attempt. -/
def retry_async {T E : Type} (maxAttempts : Nat) (op : Nat → Except E T) :
    Except E T :=
  (retryGo op 0 (maxAttempts - 1)).1

/-- The number of invocations `retry_async` performs. -/
def retryInvocations {T E : Type} (maxAttempts : Nat) (op : Nat → Except E T) :
    Nat :=
  (retryGo op 0 (maxAttempts - 1)).2

/-! ## Serialization (`serde_json::to_string`)

`serde_json`'s serializer for `Value` is total: it writes into an in-memory
buffer and `Value` cannot contain non-string map keys, so it is embedded as
a total function to a character list. -/

/-- The lower-case hexadecimal digit for `n < 16`. -/
def hexDigitChar (n : Nat) : Char :=
  if n < 10 then Char.ofNat (48 + n) else Char.ofNat (87 + n)

/-- The six-character `\u00XY` escape of a control character code. -/
def hexEscape (n : Nat) : List Char :=
  '\\' :: 'u' :: '0' :: '0' :: hexDigitChar (n / 16) :: hexDigitChar (n % 16) :: []

/-- How `serde_json` escapes one character inside a JSON string literal:
quote, backslash and the control shortcuts get two-character escapes, the
remaining control characters get a `\u00XY` escape, everything else is
emitted verbatim. -/
def escapeChar (c : Char) : List Char :=
  if c = '"' then ['\\', '"']
  else if c = '\\' then ['\\', '\\']
  else if c = '\x08' then ['\\', 'b']
  else if c = '\x0c' then ['\\', 'f']
  else if c = '\n' then ['\\', 'n']
  else if c = '\r' then ['\\', 'r']
  else if c = '\t' then ['\\', 't']
  else if c.toNat < 32 then hexEscape c.toNat
  else c :: []

/-- Escape every character of a string body. -/
def escapeList : List Char → List Char
  | [] => []
  | c :: rest => escapeChar c ++ escapeList rest

/-- The decimal digit for `n < 10`. -/
def digitChar (n : Nat) : Char := Char.ofNat (48 + n)

/-- Decimal notation, most significant digit first, by structural
recursion on a fuel that strictly dominates the argument. -/
def natToCharsGo : Nat → Nat → List Char
  | 0, _ => []
  | fuel + 1, n =>
    if n < 10 then [digitChar n]
    else natToCharsGo fuel (n / 10) ++ [digitChar (n % 10)]

/-- Decimal notation of a natural number, most significant digit first. -/
def natToChars (n : Nat) : List Char := natToCharsGo (n + 1) n

/-- Decimal notation of an integer. -/
def intToChars : Int → List Char
  | .ofNat m => natToChars m
  | .negSucc m => '-' :: natToChars (m + 1)

mutual

/-- `serde_json::to_string` on a `Value`, as a character list. -/
def serializeChars : Json → List Char
  | .null => "null".data
  | .bool true => "true".data
  | .bool false => "false".data
  | .num n => intToChars n
  | .str s => '"' :: (escapeList s.data ++ ['"'])
  | .arr [] => "[]".data
  | .arr (x :: xs) => '[' :: (serializeChars x ++ serializeElems xs ++ [']'])
  | .obj [] => "\x7b\x7d".data
  | .obj ((k, v) :: es) =>
    '\x7b' :: '"' :: (escapeList k.data ++ ['"', ':'] ++ serializeChars v ++
      serializeEntries es ++ ['\x7d'])

/-- The remaining elements of an array, each preceded by a comma. -/
def serializeElems : List Json → List Char
  | [] => []
  | el :: rest => ',' :: serializeChars el ++ serializeElems rest

/-- The remaining members of an object, each preceded by a comma. -/
def serializeEntries : List (String × Json) → List Char
  | [] => []
  | (k, v) :: es =>
    ',' :: '"' :: (escapeList k.data ++ ['"', ':'] ++ serializeChars v ++
      serializeEntries es)

end

/-- `serde_json::to_string` on a `Value`. -/
def jsonToString (v : Json) : String := String.mk (serializeChars v)

mutual

/-- Structural size of a JSON tree, used as a recursion budget bound. -/
def jsize : Json → Nat
  | .arr elems => 1 + lsize elems
  | .obj entries => 1 + esize entries
  | _ => 1

/-- Structural size of a list of array elements. -/
def lsize : List Json → Nat
  | [] => 0
  | x :: xs => 1 + jsize x + lsize xs

/-- Structural size of a list of object members. -/
def esize : List (String × Json) → Nat
  | [] => 0
  | entry :: es => 1 + jsize entry.2 + esize es

end

/-! ## Parsing (`serde_json::from_str`)

A recursive-descent parser over character lists.  The mutual recursion of
values, array elements and object members is driven by an explicit
recursion budget (fuel); the top-level entry point supplies a budget that
is provably sufficient for every input that parses at all.  Whitespace
handling and non-integral numbers are not modelled (no claim depends on
them); everything the serializer above can emit is parsed back exactly. -/

/-- Is `c` a decimal digit? -/
def isDigitChar (c : Char) : Bool := 48 ≤ c.toNat && c.toNat ≤ 57

/-- Split off the longest prefix of decimal digits. -/
def takeDigits : List Char → List Char × List Char
  | [] => ([], [])
  | c :: rest =>
    if isDigitChar c then
      let p := takeDigits rest
      (c :: p.1, p.2)
    else ([], c :: rest)

/-- The value of a most-significant-first digit list. -/
def digitsToNat (l : List Char) : Nat :=
  l.foldl (fun a c => a * 10 + (c.toNat - 48)) 0

/-- The value of a hexadecimal digit character. -/
def hexVal (c : Char) : Option Nat :=
  if 48 ≤ c.toNat ∧ c.toNat ≤ 57 then some (c.toNat - 48)
  else if 97 ≤ c.toNat ∧ c.toNat ≤ 102 then some (c.toNat - 87)
  else if 65 ≤ c.toNat ∧ c.toNat ≤ 70 then some (c.toNat - 55)
  else none

mutual

/-- Parse the body of a JSON string literal (the opening quote already
consumed), undoing the escapes of `escapeChar`; returns the decoded
characters and the input after the closing quote. -/
def parseStringBody : List Char → Option (List Char × List Char)
  | [] => none
  | c :: rest =>
    if c = '"' then some ([], rest)
    else if c = '\\' then parseStringEscape rest
    else (parseStringBody rest).map (fun p => (c :: p.1, p.2))

/-- Parse what follows a backslash inside a JSON string literal, then the
remainder of the string body. -/
def parseStringEscape : List Char → Option (List Char × List Char)
  | [] => none
  | e :: r =>
    if e = '"' then (parseStringBody r).map (fun p => ('"' :: p.1, p.2))
    else if e = '\\' then (parseStringBody r).map (fun p => ('\\' :: p.1, p.2))
    else if e = '/' then (parseStringBody r).map (fun p => ('/' :: p.1, p.2))
    else if e = 'b' then (parseStringBody r).map (fun p => ('\x08' :: p.1, p.2))
    else if e = 'f' then (parseStringBody r).map (fun p => ('\x0c' :: p.1, p.2))
    else if e = 'n' then (parseStringBody r).map (fun p => ('\n' :: p.1, p.2))
    else if e = 'r' then (parseStringBody r).map (fun p => ('\r' :: p.1, p.2))
    else if e = 't' then (parseStringBody r).map (fun p => ('\t' :: p.1, p.2))
    else if e = 'u' then
      match r with
      | h1 :: h2 :: h3 :: h4 :: r' =>
        match hexVal h1, hexVal h2, hexVal h3, hexVal h4 with
        | some a, some b, some c3, some d =>
          (parseStringBody r').map
            (fun p => (Char.ofNat (((a * 16 + b) * 16 + c3) * 16 + d) :: p.1, p.2))
        | _, _, _, _ => none
      | _ => none
    else none

end

/-- Consume an expected literal character sequence, returning the rest. -/
def dropLit : List Char → List Char → Option (List Char)
  | [], l => some l
  | _ :: _, [] => none
  | c :: cs, x :: xs => if x = c then dropLit cs xs else none

mutual

/-- Parse one JSON value; `none` on malformed input or exhausted fuel. -/
def parseVal : Nat → List Char → Option (Json × List Char)
  | 0, _ => none
  | _ + 1, [] => none
  | fuel + 1, c :: rest =>
    if c = 'n' then
      match dropLit ['u', 'l', 'l'] rest with
      | some r => some (.null, r)
      | none => none
    else if c = 't' then
      match dropLit ['r', 'u', 'e'] rest with
      | some r => some (.bool true, r)
      | none => none
    else if c = 'f' then
      match dropLit ['a', 'l', 's', 'e'] rest with
      | some r => some (.bool false, r)
      | none => none
    else if c = '"' then
      (parseStringBody rest).map (fun p => (.str (String.mk p.1), p.2))
    else if c = '[' then
      if rest.head? = some ']' then some (.arr [], rest.tail)
      else (parseElems fuel rest).map (fun p => (.arr p.1, p.2))
    else if c = '\x7b' then
      if rest.head? = some '\x7d' then some (.obj [], rest.tail)
      else (parseFields fuel rest).map (fun p => (.obj p.1, p.2))
    else if c = '-' then
      let p := takeDigits rest
      if p.1 = [] then none else some (.num (-(digitsToNat p.1 : Int)), p.2)
    else if isDigitChar c then
      let p := takeDigits rest
      some (.num (digitsToNat (c :: p.1)), p.2)
    else none

/-- Parse the non-empty element list of an array, up to and including the
closing bracket. -/
def parseElems : Nat → List Char → Option (List Json × List Char)
  | 0, _ => none
  | fuel + 1, l =>
    match parseVal fuel l with
    | none => none
    | some (v, r) =>
      match r with
      | [] => none
      | c :: r' =>
        if c = ',' then
          match parseElems fuel r' with
          | some (vs, r'') => some (v :: vs, r'')
          | none => none
        else if c = ']' then some ([v], r')
        else none

/-- Parse the non-empty member list of an object, up to and including the
closing brace. -/
def parseFields : Nat → List Char → Option (List (String × Json) × List Char)
  | 0, _ => none
  | fuel + 1, l =>
    match l with
    | [] => none
    | c0 :: r0 =>
      if c0 = '"' then
        match parseStringBody r0 with
        | none => none
        | some (kchars, r1) =>
          match r1 with
          | [] => none
          | c1 :: r2 =>
            if c1 = ':' then
              match parseVal fuel r2 with
              | none => none
              | some (v, r3) =>
                match r3 with
                | [] => none
                | c3 :: r4 =>
                  if c3 = ',' then
                    match parseFields fuel r4 with
                    | some (es, r5) => some ((String.mk kchars, v) :: es, r5)
                    | none => none
                  else if c3 = '\x7d' then some ([(String.mk kchars, v)], r4)
                  else none
            else none
      else none

end

/-- `serde_json::from_str` into a generic `Value`: parse the whole input as
one JSON value, with a diagnostic on failure.  The supplied fuel
`2 * length + 2` dominates the recursion depth of any successful parse. -/
def parseJson (s : String) : Except String Json :=
  match parseVal (2 * s.data.length + 2) s.data with
  | some (v, []) => .ok v
  | some (_, _ :: _) => .error "trailing characters"
  | none => .error "expected value"

/-! ## The fetch pipeline (`src/rest/mod.rs`) -/

/-- The error taxonomy `ShopifyAPIError` as used by the pipeline.
`Transport` stands for the error produced by the `?` on `req.send()`. -/
inductive ShopifyAPIError where
  | Transport (msg : String)
  | ResponseBroken
  | JsonParseError (msg : String)
  | NotWantedJsonFormat (body : String)
  deriving DecidableEq

/-- What the outside world does on one attempt: `req.send()` fails,
`res.text()` fails, or a body text is delivered. -/
inductive TransportOutcome where
  | sendError (msg : String)
  | bodyError
  | body (text : String)
  deriving DecidableEq

/-- `serde_json::from_str::<R>`: parse the text, then structurally decode
the parsed tree into `R`.  The capability `R: DeserializeOwned` is embedded
as a structural decoder out of the generic tree. -/
def from_str {R : Type} (dec : Json → Except String R) (s : String) :
    Except String R :=
  match parseJson s with
  | .error e => .error e
  | .ok j => dec j

/-- One attempt of the fetch pipeline: the body of `shopify_rest_query`
after the dispatch, with the transport's behaviour supplied as data.
Mirrors `src/rest/mod.rs` lines 64–101: read the body text
(`ResponseBroken` on failure), parse it (`JsonParseError` on failure),
navigate if a finder was supplied (`NotWantedJsonFormat` carrying the
pre-navigation tree on failure), re-encode the narrowed tree
(`serde_json::to_string` on a `Value` is total), and decode the re-encoded
text into the target type (`NotWantedJsonFormat` carrying that text on
failure). -/
def shopify_rest_query {R : Type} (dec : Json → Except String R)
    (transport : TransportOutcome)
    (json_finder : Option (List ReadJsonTreeSteps)) : Except ShopifyAPIError R :=
  match transport with
  | .sendError msg => .error (.Transport msg)
  | .bodyError => .error .ResponseBroken
  | .body bodyText =>
    match parseJson bodyText with
    | .error e => .error (.JsonParseError e)
    | .ok json =>
      match (match json_finder with
        | some finder =>
          match read_json_tree json finder with
          | .ok v => Except.ok v
          | .error _ =>
            Except.error (ShopifyAPIError.NotWantedJsonFormat (jsonToString json))
        | none => Except.ok json) with
      | .error e => .error e
      | .ok narrowed =>
        match from_str dec (jsonToString narrowed) with
        | .ok v => .ok v
        | .error _ => .error (.NotWantedJsonFormat (jsonToString narrowed))

/-- `Shopify::rest_query` (`src/rest/mod.rs` lines 150–162): the whole
pipeline attempt, retried with a fixed ceiling of 10 attempts.
`transports a` is the outside world's behaviour on attempt `a + 1`; the
descriptor, finder and decoder are the same on every attempt. -/
def rest_query {R : Type} (dec : Json → Except String R)
    (transports : Nat → TransportOutcome)
    (json_finder : Option (List ReadJsonTreeSteps)) : Except ShopifyAPIError R :=
  retry_async 10 (fun attempt => shopify_rest_query dec (transports attempt) json_finder)

/-- The part of the `Shopify` client state the pipeline reads when it
builds headers. -/
structure Shopify where
  api_key : String

/-- Validity of an HTTP header value as checked by
`HeaderValue::from_str` (which `"...".parse()` calls): every byte must be
the horizontal tab or in `32..=255` without `127`.  On the character level
this is exactly the predicate below, because every byte of a multi-byte
UTF-8 character is at least `128`. -/
def is_valid_header_value (s : String) : Bool :=
  s.data.all (fun c => c.toNat == 9 || (decide (32 ≤ c.toNat) && c.toNat != 127))

/-- Either a panic (an `unwrap` on a failed parse) or a returned value. -/
inductive PanicOr (A : Type) where
  | panics
  | value (a : A)

/-- `shopify_rest_query` including its header-construction prologue
(`src/rest/mod.rs` lines 34–37): `"application/json".parse().unwrap()` and
`shopify.api_key.parse().unwrap()` run before the request is dispatched,
and an invalid header value makes the corresponding `unwrap` panic. -/
def shopify_rest_query_checked {R : Type} (shopify : Shopify)
    (dec : Json → Except String R) (transport : TransportOutcome)
    (json_finder : Option (List ReadJsonTreeSteps)) :
    PanicOr (Except ShopifyAPIError R) :=
  if is_valid_header_value "application/json" then
    if is_valid_header_value shopify.api_key then
      .value (shopify_rest_query dec transport json_finder)
    else .panics
  else .panics

/-- The record type of the spec's scenario A (`id`, `title`). -/
structure Product where
  id : Int
  title : String
  deriving DecidableEq

/-- The derived structural decoder for `Product`: an object whose `id`
member is a number and whose `title` member is a string. -/
def decodeProduct (j : Json) : Except String Product :=
  match j with
  | .obj entries =>
    match lookupKey "id" entries, lookupKey "title" entries with
    | some (.num n), some (.str t) => .ok ⟨n, t⟩
    | _, _ => .error "missing field"
  | _ => .error "invalid type: expected object"

/-- The value of key `k` when the current value is a mapping containing
`k`, and nothing otherwise (no partial or case-insensitive matching). -/
def mappingKey : Json → String → Option Json
  | .obj entries, k => lookupKey k entries
  | _, _ => none

/-- The entry at 0-based position `i` when the current value is a sequence
long enough, and nothing otherwise. -/
def seqIndex : Json → Nat → Option Json
  | .arr elems, i => elems.get? i
  | _, _ => none

/-! ## Round-trip lemmas: digits, hex digits, string escapes -/

/-- A list whose head is not a digit: greedy number parsing of a prefix
followed by such a list stops exactly at the boundary. -/
def noDigitHead : List Char → Prop
  | [] => True
  | c :: _ => isDigitChar c = false

theorem noDigitHead_nil : noDigitHead [] := trivial

theorem noDigitHead_cons {c : Char} {l : List Char}
    (h : isDigitChar c = false) : noDigitHead (c :: l) := h

theorem digitChar_toNat : ∀ k, k < 10 → (digitChar k).toNat = 48 + k := by decide

theorem isDigitChar_digitChar : ∀ k, k < 10 → isDigitChar (digitChar k) = true := by
  decide

theorem hexVal_hexDigitChar : ∀ k, k < 16 → hexVal (hexDigitChar k) = some k := by
  decide

theorem digitsToNat_append (xs : List Char) (d : Char) :
    digitsToNat (xs ++ [d]) = digitsToNat xs * 10 + (d.toNat - 48) := by
  simp [digitsToNat, List.foldl_append]

theorem natToCharsGo_digits (fuel : Nat) :
    ∀ n, n < fuel → ∀ c ∈ natToCharsGo fuel n, isDigitChar c = true := by
  induction fuel with
  | zero => intro n h; omega
  | succ f ih =>
    intro n h c hc
    rw [natToCharsGo] at hc
    by_cases h10 : n < 10
    · rw [if_pos h10] at hc
      simp only [List.mem_singleton] at hc
      subst hc
      exact isDigitChar_digitChar n h10
    · rw [if_neg h10] at hc
      rcases List.mem_append.mp hc with hc | hc
      · exact ih (n / 10) (by omega) c hc
      · simp only [List.mem_singleton] at hc
        subst hc
        exact isDigitChar_digitChar (n % 10) (Nat.mod_lt n (by omega))

theorem natToCharsGo_val (fuel : Nat) :
    ∀ n, n < fuel → digitsToNat (natToCharsGo fuel n) = n := by
  induction fuel with
  | zero => intro n h; omega
  | succ f ih =>
    intro n h
    rw [natToCharsGo]
    by_cases h10 : n < 10
    · rw [if_pos h10]
      have := digitChar_toNat n h10
      simp [digitsToNat, this]
    · rw [if_neg h10]
      rw [digitsToNat_append, ih (n / 10) (by omega),
        digitChar_toNat (n % 10) (Nat.mod_lt n (by omega))]
      omega

theorem natToCharsGo_ne_nil (fuel : Nat) :
    ∀ n, n < fuel → natToCharsGo fuel n ≠ [] := by
  induction fuel with
  | zero => intro n h; omega
  | succ f ih =>
    intro n h
    rw [natToCharsGo]
    by_cases h10 : n < 10
    · rw [if_pos h10]; simp
    · rw [if_neg h10]; simp

theorem natToChars_digits (n : Nat) : ∀ c ∈ natToChars n, isDigitChar c = true :=
  natToCharsGo_digits (n + 1) n (Nat.lt_succ_self n)

theorem natToChars_val (n : Nat) : digitsToNat (natToChars n) = n :=
  natToCharsGo_val (n + 1) n (Nat.lt_succ_self n)

theorem natToChars_ne_nil (n : Nat) : natToChars n ≠ [] :=
  natToCharsGo_ne_nil (n + 1) n (Nat.lt_succ_self n)

theorem takeDigits_of_digits (ds : List Char) (rest : List Char)
    (hds : ∀ c ∈ ds, isDigitChar c = true) (hrest : noDigitHead rest) :
    takeDigits (ds ++ rest) = (ds, rest) := by
  induction ds with
  | nil =>
    cases rest with
    | nil => rfl
    | cons c t =>
      have h : isDigitChar c = false := hrest
      simp [takeDigits, h]
  | cons c t ih =>
    have hc : isDigitChar c = true := hds c (List.mem_cons_self c t)
    have ht : ∀ d ∈ t, isDigitChar d = true := fun d hd => hds d (List.mem_cons_of_mem c hd)
    simp [takeDigits, hc, ih ht]

theorem parseStringBody_escapeList (s : List Char) (rest : List Char) :
    parseStringBody (escapeList s ++ ('"' :: rest)) = some (s, rest) := by
  induction s with
  | nil => simp [escapeList, parseStringBody]
  | cons c cs ih =>
    show parseStringBody ((escapeChar c ++ escapeList cs) ++ ('"' :: rest)) = _
    rw [List.append_assoc]
    by_cases h1 : c = '"'
    · subst h1; simp [escapeChar, parseStringBody, parseStringEscape, ih]
    by_cases h2 : c = '\\'
    · subst h2; simp [escapeChar, parseStringBody, parseStringEscape, ih]
    by_cases h3 : c = '\x08'
    · subst h3; simp [escapeChar, parseStringBody, parseStringEscape, ih]
    by_cases h4 : c = '\x0c'
    · subst h4; simp [escapeChar, parseStringBody, parseStringEscape, ih]
    by_cases h5 : c = '\n'
    · subst h5; simp [escapeChar, parseStringBody, parseStringEscape, ih]
    by_cases h6 : c = '\r'
    · subst h6; simp [escapeChar, parseStringBody, parseStringEscape, ih]
    by_cases h7 : c = '\t'
    · subst h7; simp [escapeChar, parseStringBody, parseStringEscape, ih]
    by_cases h8 : c.toNat < 32
    · have h0 : hexVal '0' = some 0 := by decide
      have e1 : hexVal (hexDigitChar (c.toNat / 16)) = some (c.toNat / 16) :=
        hexVal_hexDigitChar (c.toNat / 16) (by omega)
      have e2 : hexVal (hexDigitChar (c.toNat % 16)) = some (c.toNat % 16) :=
        hexVal_hexDigitChar (c.toNat % 16) (by omega)
      have harith : ((0 * 16 + 0) * 16 + c.toNat / 16) * 16 + c.toNat % 16 = c.toNat := by
        omega
      simp only [escapeChar, hexEscape, h1, h2, h3, h4, h5, h6, h7, if_neg,
        ite_false, h8, ite_true, List.cons_append, List.nil_append]
      rw [parseStringBody]
      simp only [Char.reduceEq, reduceIte]
      rw [parseStringEscape]
      simp only [Char.reduceEq, reduceIte, h0, e1, e2, ih]
      rw [harith, Char.ofNat_toNat]
      rfl
    · simp only [escapeChar, h1, h2, h3, h4, h5, h6, h7, h8, if_neg, ite_false,
        List.cons_append, List.nil_append]
      rw [parseStringBody]
      simp [h1, h2, ih]

/-! ## The serializer/parser round trip -/

theorem jsize_pos (v : Json) : 1 ≤ jsize v := by
  cases v <;> simp [jsize]

theorem isDigitChar_ne {d : Char} (h : isDigitChar d = true) :
    d ≠ 'n' ∧ d ≠ 't' ∧ d ≠ 'f' ∧ d ≠ '"' ∧ d ≠ '[' ∧ d ≠ '\x7b' ∧ d ≠ '-' := by
  refine ⟨?_, ?_, ?_, ?_, ?_, ?_, ?_⟩ <;> (rintro rfl; exact absurd h (by decide))

theorem natToChars_head (n : Nat) :
    ∃ d ds, natToChars n = d :: ds ∧ isDigitChar d = true := by
  cases h : natToChars n with
  | nil => exact absurd h (natToChars_ne_nil n)
  | cons d ds =>
    refine ⟨d, ds, rfl, natToChars_digits n d ?_⟩
    rw [h]
    exact List.mem_cons_self d ds

theorem serializeChars_head (v : Json) :
    ∃ c t, serializeChars v = c :: t ∧ c ≠ ']' := by
  cases v with
  | null => exact ⟨'n', _, rfl, by decide⟩
  | bool b =>
    cases b
    · exact ⟨'f', _, rfl, by decide⟩
    · exact ⟨'t', _, rfl, by decide⟩
  | num n =>
    cases n with
    | ofNat m =>
      obtain ⟨d, ds, hd, hdig⟩ := natToChars_head m
      refine ⟨d, ds, ?_, ?_⟩
      · simpa [serializeChars, intToChars] using hd
      · rintro rfl; exact absurd hdig (by decide)
    | negSucc m => exact ⟨'-', _, rfl, by decide⟩
  | str s => exact ⟨'"', _, rfl, by decide⟩
  | arr elems =>
    cases elems with
    | nil => exact ⟨'[', _, rfl, by decide⟩
    | cons x xs => exact ⟨'[', _, rfl, by decide⟩
  | obj entries =>
    cases entries with
    | nil => exact ⟨'\x7b', _, rfl, by decide⟩
    | cons e es =>
      obtain ⟨k, v⟩ := e
      exact ⟨'\x7b', _, rfl, by decide⟩

mutual

theorem parseVal_ser (v : Json) (rest : List Char) (fuel : Nat)
    (hfuel : 2 * jsize v ≤ fuel) (hrest : noDigitHead rest) :
    parseVal fuel (serializeChars v ++ rest) = some (v, rest) := by
  obtain ⟨f, rfl⟩ : ∃ f, fuel = f + 1 := by
    have := jsize_pos v
    cases fuel with
    | zero => omega
    | succ f => exact ⟨f, rfl⟩
  cases v with
  | null => simp [serializeChars, parseVal, dropLit]
  | bool b => cases b <;> simp [serializeChars, parseVal, dropLit]
  | num n =>
    cases n with
    | ofNat m =>
      obtain ⟨d, ds, hd, hdig⟩ := natToChars_head m
      have hne := isDigitChar_ne hdig
      have hds : ∀ x ∈ ds, isDigitChar x = true := fun x hx =>
        natToChars_digits m x (by rw [hd]; exact List.mem_cons_of_mem d hx)
      have htd : takeDigits (ds ++ rest) = (ds, rest) :=
        takeDigits_of_digits ds rest hds hrest
      have hval : digitsToNat (d :: ds) = m := by
        have h := natToChars_val m
        rwa [hd] at h
      simp only [serializeChars, intToChars, hd, List.cons_append]
      rw [parseVal]
      simp [hne.1, hne.2.1, hne.2.2.1, hne.2.2.2.1, hne.2.2.2.2.1,
        hne.2.2.2.2.2.1, hne.2.2.2.2.2.2, hdig, htd, hval]
    | negSucc m =>
      have hds : ∀ x ∈ natToChars (m + 1), isDigitChar x = true :=
        natToChars_digits (m + 1)
      have htd : takeDigits (natToChars (m + 1) ++ rest) = (natToChars (m + 1), rest) :=
        takeDigits_of_digits _ rest hds hrest
      simp only [serializeChars, intToChars, List.cons_append]
      rw [parseVal]
      simp [Char.reduceEq, htd, natToChars_ne_nil (m + 1), natToChars_val (m + 1),
        Int.negSucc_eq]
  | str s =>
    obtain ⟨sd⟩ := s
    simp only [serializeChars, List.cons_append, List.append_assoc,
      List.singleton_append]
    rw [parseVal]
    simp [Char.reduceEq, parseStringBody_escapeList]
  | arr elems =>
    cases elems with
    | nil => simp [serializeChars, parseVal, Char.reduceEq]
    | cons x xs =>
      have hfe : 2 * lsize (x :: xs) ≤ f := by
        simp only [jsize] at hfuel; omega
      have he := parseElems_ser x xs rest f hfe
      obtain ⟨c0, t0, hser, hc0⟩ := serializeChars_head x
      have hh : (serializeChars x ++ (serializeElems xs ++ (']' :: rest))).head? =
          some c0 := by rw [hser]; rfl
      simp only [serializeChars, List.cons_append, List.append_assoc,
        List.singleton_append]
      rw [parseVal]
      simp [Char.reduceEq, hh, hc0, he]
  | obj entries =>
    cases entries with
    | nil => simp [serializeChars, parseVal, Char.reduceEq]
    | cons e es =>
      obtain ⟨k, v⟩ := e
      have hfe : 2 * esize ((k, v) :: es) ≤ f := by
        simp only [jsize] at hfuel; omega
      have he := parseFields_ser k v es rest f hfe
      simp only [serializeChars, List.cons_append, List.append_assoc,
        List.singleton_append]
      rw [parseVal]
      simp [Char.reduceEq, he]
termination_by fuel
decreasing_by all_goals omega

theorem parseElems_ser (x : Json) (xs : List Json) (rest : List Char) (fuel : Nat)
    (hfuel : 2 * lsize (x :: xs) ≤ fuel) :
    parseElems fuel (serializeChars x ++ (serializeElems xs ++ (']' :: rest))) =
      some (x :: xs, rest) := by
  obtain ⟨g, rfl⟩ : ∃ g, fuel = g + 1 := by
    simp only [lsize] at hfuel
    cases fuel with
    | zero => omega
    | succ g => exact ⟨g, rfl⟩
  have hrest2 : noDigitHead (serializeElems xs ++ (']' :: rest)) := by
    cases xs with
    | nil => exact noDigitHead_cons (by decide)
    | cons y ys =>
      simp only [serializeElems, List.cons_append]
      exact noDigitHead_cons (by decide)
  have hv : parseVal g (serializeChars x ++ (serializeElems xs ++ (']' :: rest))) =
      some (x, serializeElems xs ++ (']' :: rest)) := by
    apply parseVal_ser x _ g ?_ hrest2
    simp only [lsize] at hfuel
    omega
  rw [parseElems, hv]
  cases xs with
  | nil => simp [serializeElems, Char.reduceEq]
  | cons y ys =>
    have hrec := parseElems_ser y ys rest g (by simp only [lsize] at hfuel ⊢; omega)
    simp only [serializeElems, List.cons_append, List.append_assoc]
    simp [Char.reduceEq, hrec]
termination_by fuel
decreasing_by all_goals omega

theorem parseFields_ser (k : String) (v : Json) (es : List (String × Json))
    (rest : List Char) (fuel : Nat) (hfuel : 2 * esize ((k, v) :: es) ≤ fuel) :
    parseFields fuel ('"' :: (escapeList k.data ++
      ('"' :: ':' :: (serializeChars v ++
        (serializeEntries es ++ ('\x7d' :: rest)))))) = some ((k, v) :: es, rest) := by
  obtain ⟨g, rfl⟩ : ∃ g, fuel = g + 1 := by
    simp only [esize] at hfuel
    cases fuel with
    | zero => omega
    | succ g => exact ⟨g, rfl⟩
  have hrest3 : noDigitHead (serializeEntries es ++ ('\x7d' :: rest)) := by
    cases es with
    | nil => exact noDigitHead_cons (by decide)
    | cons e2 es2 =>
      obtain ⟨k2, v2⟩ := e2
      simp only [serializeEntries, List.cons_append]
      exact noDigitHead_cons (by decide)
  have hv : parseVal g (serializeChars v ++ (serializeEntries es ++ ('\x7d' :: rest))) =
      some (v, serializeEntries es ++ ('\x7d' :: rest)) := by
    apply parseVal_ser v _ g ?_ hrest3
    simp only [esize] at hfuel
    omega
  have hkey : parseStringBody (escapeList k.data ++
      ('"' :: (':' :: (serializeChars v ++ (serializeEntries es ++ ('\x7d' :: rest)))))) =
      some (k.data, ':' :: (serializeChars v ++ (serializeEntries es ++ ('\x7d' :: rest)))) :=
    parseStringBody_escapeList k.data _
  obtain ⟨kd⟩ := k
  rw [parseFields]
  simp only [Char.reduceEq, reduceIte, hkey, hv]
  cases es with
  | nil => simp [serializeEntries, Char.reduceEq]
  | cons e2 es2 =>
    obtain ⟨k2, v2⟩ := e2
    have hrec := parseFields_ser k2 v2 es2 rest g
      (by simp only [esize] at hfuel ⊢; omega)
    simp only [serializeEntries, List.cons_append, List.append_assoc]
    simp [Char.reduceEq, hrec]
termination_by fuel
decreasing_by all_goals omega

end

mutual

theorem jsize_le_length : ∀ v : Json, jsize v ≤ (serializeChars v).length
  | .null => by simp [jsize, serializeChars]
  | .bool b => by cases b <;> simp [jsize, serializeChars]
  | .num n => by
    cases n with
    | ofNat m =>
      have h := List.length_pos.mpr (natToChars_ne_nil m)
      simp only [jsize, serializeChars, intToChars]
      omega
    | negSucc m => simp [jsize, serializeChars, intToChars]
  | .str s => by simp [jsize, serializeChars]
  | .arr [] => by simp [jsize, lsize, serializeChars]
  | .arr (x :: xs) => by
    have h1 := jsize_le_length x
    have h2 := lsize_le_length xs
    simp only [jsize, lsize, serializeChars, List.length_cons, List.length_append,
      List.length_singleton]
    omega
  | .obj [] => by simp [jsize, esize, serializeChars]
  | .obj ((k, v) :: es) => by
    have h1 := jsize_le_length v
    have h2 := esize_le_length es
    simp only [jsize, esize, serializeChars, List.length_cons, List.length_append,
      List.length_singleton]
    omega

theorem lsize_le_length : ∀ xs : List Json, lsize xs ≤ (serializeElems xs).length
  | [] => by simp [lsize, serializeElems]
  | x :: xs => by
    have h1 := jsize_le_length x
    have h2 := lsize_le_length xs
    simp only [lsize, serializeElems, List.length_cons, List.length_append]
    omega

theorem esize_le_length : ∀ es : List (String × Json),
    esize es ≤ (serializeEntries es).length
  | [] => by simp [esize, serializeEntries]
  | (k, v) :: es => by
    have h1 := jsize_le_length v
    have h2 := esize_le_length es
    simp only [esize, serializeEntries, List.length_cons, List.length_append,
      List.length_singleton]
    omega

end

/-- The round trip at the heart of the pipeline's hand-off step: parsing a
serialized tree recovers the tree exactly. -/
theorem parseJson_jsonToString (v : Json) : parseJson (jsonToString v) = .ok v := by
  have hlen : jsize v ≤ (serializeChars v).length := jsize_le_length v
  have h := parseVal_ser v [] (2 * (serializeChars v).length + 2) (by omega)
    noDigitHead_nil
  rw [List.append_nil] at h
  simp [parseJson, jsonToString, h]

/-! ## Retry executor lemmas -/

theorem retryGo_all_fail {T E : Type} (op : Nat → Except E T) :
    ∀ r i, (∀ j, j ≤ r → ∃ e, op (i + j) = .error e) →
      retryGo op i r = (op (i + r), r + 1) := by
  intro r
  induction r with
  | zero => intro i h; simp [retryGo]
  | succ r ih =>
    intro i h
    obtain ⟨e, he⟩ := h 0 (by omega)
    simp only [Nat.add_zero] at he
    have hrec := ih (i + 1) (fun j hj => by
      obtain ⟨e', he'⟩ := h (j + 1) (by omega)
      exact ⟨e', by rw [show i + 1 + j = i + (j + 1) from by omega]; exact he'⟩)
    rw [retryGo, he]
    simp only [hrec]
    rw [show i + 1 + r = i + (r + 1) from by omega]

theorem retryGo_succeeds {T E : Type} (op : Nat → Except E T) (v : T) :
    ∀ k i r, (∀ j, j < k → ∃ e, op (i + j) = .error e) → op (i + k) = .ok v →
      k ≤ r → retryGo op i r = (.ok v, k + 1) := by
  intro k
  induction k with
  | zero =>
    intro i r h hk hr
    simp only [Nat.add_zero] at hk
    cases r with
    | zero => simp [retryGo, hk]
    | succ r => simp [retryGo, hk]
  | succ k ih =>
    intro i r h hk hr
    obtain ⟨r', rfl⟩ : ∃ r', r = r' + 1 := ⟨r - 1, by omega⟩
    obtain ⟨e, he⟩ := h 0 (by omega)
    simp only [Nat.add_zero] at he
    have hrec := ih (i + 1) r'
      (fun j hj => by
        obtain ⟨e', he'⟩ := h (j + 1) (by omega)
        exact ⟨e', by rw [show i + 1 + j = i + (j + 1) from by omega]; exact he'⟩)
      (by rw [show i + 1 + k = i + (k + 1) from by omega]; exact hk)
      (by omega)
    rw [retryGo, he]
    simp [hrec]

/-- The hand-off step in isolation: `from_str` after re-encoding is the
structural decoder itself. -/
theorem from_str_jsonToString {R : Type} (dec : Json → Except String R) (v : Json) :
    from_str dec (jsonToString v) = dec v := by
  simp [from_str, parseJson_jsonToString]

/-! ## The claims -/

/-- C3: navigation applies the steps strictly left to right.  A `Key k`
step succeeds exactly when the current value is a mapping containing `k`
(exact key equality, no partial or case-insensitive matching), an
`Index i` step succeeds exactly when the current value is a sequence with
an entry at 0-based position `i`, and a failing step yields
`Error NotFound` whatever the later steps are (they are never
evaluated: the result does not depend on them). -/
theorem claim_C3 (v : Json) (k : String) (i : Nat) (rest : List ReadJsonTreeSteps) :
    (read_json_tree v (.Key k :: rest) =
      match mappingKey v k with
      | some v' => read_json_tree v' rest
      | none => .error .NotFound) ∧
    (read_json_tree v (.Index i :: rest) =
      match seqIndex v i with
      | some v' => read_json_tree v' rest
      | none => .error .NotFound) := by
  constructor
  · cases v <;> simp [read_json_tree, mappingKey]
  · cases v <;> simp [read_json_tree, seqIndex]

/-- C4: with `maxAttempts ≥ 1`, an operation failing on attempts `1..k-1`
and succeeding on attempt `k ≤ maxAttempts` makes `retry_async` return the
success after exactly `k` invocations; an operation failing on every
attempt makes it perform exactly `maxAttempts` invocations and return the
error of the last one, whatever the errors are. -/
theorem claim_C4 (T E : Type) (op : Nat → Except E T) (maxAttempts k : Nat) (v : T)
    (hmax : 1 ≤ maxAttempts) :
    (((∀ j, j < k - 1 → ∃ e, op j = .error e) ∧ op (k - 1) = .ok v ∧
        1 ≤ k ∧ k ≤ maxAttempts) →
      retry_async maxAttempts op = .ok v ∧
        retryInvocations maxAttempts op = k) ∧
    ((∀ j, j < maxAttempts → ∃ e, op j = .error e) →
      retry_async maxAttempts op = op (maxAttempts - 1) ∧
        retryInvocations maxAttempts op = maxAttempts) := by
  constructor
  · rintro ⟨hfail, hok, hk1, hkmax⟩
    have h := retryGo_succeeds op v (k - 1) 0 (maxAttempts - 1)
      (fun j hj => by simpa using hfail j (by omega))
      (by simpa using hok) (by omega)
    constructor
    · simp only [retry_async, h]
    · simp only [retryInvocations, h]
      omega
  · intro hfail
    have h := retryGo_all_fail op (maxAttempts - 1) 0
      (fun j hj => by simpa using hfail j (by omega))
    constructor
    · simp only [retry_async, h, Nat.zero_add]
    · simp only [retryInvocations, h]
      omega

/-- C4 witness: failures on attempts 1 and 2 and a success on attempt 3
within a ceiling of 5 yield the success after exactly 3 invocations;
failures on all 4 attempts of a ceiling of 4 yield the last error after
exactly 4 invocations. -/
theorem claim_C4_witness :
    (retry_async 5 (fun j => if j < 2 then Except.error j else Except.ok 42) =
        .ok 42 ∧
      retryInvocations 5 (fun j => if j < 2 then Except.error j else Except.ok 42) = 3) ∧
    (retry_async 4 (fun j => (Except.error j : Except Nat Nat)) = .error 3 ∧
      retryInvocations 4 (fun j => (Except.error j : Except Nat Nat)) = 4) := by
  constructor
  · exact (claim_C4 Nat Nat (fun j => if j < 2 then Except.error j else Except.ok 42)
      5 3 42 (by omega)).1
      ⟨fun j hj => ⟨j, by have h2 : j < 2 := by omega
                          simp [h2]⟩, by rfl,
        by omega, by omega⟩
  · exact (claim_C4 Nat Nat (fun j => (Except.error j : Except Nat Nat))
      4 1 0 (by omega)).2 (fun j _ => ⟨j, rfl⟩)

/-- C6: navigating with the empty path returns the root unchanged, and in
the pipeline supplying no extraction path behaves exactly like supplying
the empty path: the root parsed value is used as-is. -/
theorem claim_C6 (R : Type) (dec : Json → Except String R)
    (transport : TransportOutcome) (root : Json) :
    read_json_tree root [] = .ok root ∧
    shopify_rest_query dec transport none = shopify_rest_query dec transport (some []) := by
  refine ⟨rfl, ?_⟩
  cases transport with
  | sendError msg => rfl
  | bodyError => rfl
  | body t =>
    simp only [shopify_rest_query]
    cases parseJson t with
    | error e => rfl
    | ok j => simp [read_json_tree]

/-- C7: the double round trip of pipeline step 5 — re-encode the tree to
text, then decode the text into the target type — produces the same result
as decoding the tree directly by structural conversion, for every tree and
every structural decoder. -/
theorem claim_C7 (R : Type) (dec : Json → Except String R) (v : Json) :
    from_str dec (jsonToString v) = dec v :=
  from_str_jsonToString dec v

/-- C1: `rest_query` is exactly the retry of the whole pipeline attempt
with a fixed ceiling of 10, and when every one of the 10 attempts fails it
returns the error of the final attempt unchanged — no wrapping, no
aggregation of the earlier attempts' errors. -/
theorem claim_C1 (R : Type) (dec : Json → Except String R)
    (transports : Nat → TransportOutcome)
    (json_finder : Option (List ReadJsonTreeSteps)) :
    rest_query dec transports json_finder =
      retry_async 10
        (fun attempt => shopify_rest_query dec (transports attempt) json_finder) ∧
    ((∀ a, a < 10 → ∃ e, shopify_rest_query dec (transports a) json_finder = .error e) →
      rest_query dec transports json_finder =
        shopify_rest_query dec (transports 9) json_finder) := by
  refine ⟨rfl, fun h => ?_⟩
  have hall := retryGo_all_fail
    (fun attempt => shopify_rest_query dec (transports attempt) json_finder) 9 0
    (fun j hj => by simpa using h j (by omega))
  simp only [rest_query, retry_async, Nat.zero_add] at hall ⊢
  rw [show (10 : Nat) - 1 = 9 from rfl, hall]

/-- C1 witness: when the body read fails on all 10 attempts, `rest_query`
returns exactly what the 10th pipeline attempt returned. -/
theorem claim_C1_witness :
    rest_query decodeProduct (fun _ => .bodyError) none =
      shopify_rest_query decodeProduct ((fun _ => TransportOutcome.bodyError) 9) none :=
  (claim_C1 Product decodeProduct (fun _ => .bodyError) none).2
    (fun _ _ => ⟨.ResponseBroken, rfl⟩)

/-- C2: within one pipeline attempt, an unreadable body yields
`ResponseBroken`; a body that is not valid JSON yields `JsonParseError`
with the parser's diagnostic, whatever the extraction path; a failing
navigation yields `NotWantedJsonFormat` carrying the pre-navigation tree
rendered back to text; and with no extraction path the root parsed value
itself is what the typed decode receives. -/
theorem claim_C2 (R : Type) (dec : Json → Except String R) (bodyText : String)
    (finder : List ReadJsonTreeSteps) (e : String) (j : Json) :
    (shopify_rest_query dec .bodyError (some finder) = .error .ResponseBroken) ∧
    (shopify_rest_query dec .bodyError none = .error .ResponseBroken) ∧
    (parseJson bodyText = .error e → ∀ jf,
      shopify_rest_query dec (.body bodyText) jf = .error (.JsonParseError e)) ∧
    (parseJson bodyText = .ok j → read_json_tree j finder = .error .NotFound →
      shopify_rest_query dec (.body bodyText) (some finder) =
        .error (.NotWantedJsonFormat (jsonToString j))) ∧
    (parseJson bodyText = .ok j →
      shopify_rest_query dec (.body bodyText) none =
        match dec j with
        | .ok v => .ok v
        | .error _ => .error (.NotWantedJsonFormat (jsonToString j))) := by
  refine ⟨rfl, rfl, fun hp jf => ?_, fun hp hnav => ?_, fun hp => ?_⟩
  · simp [shopify_rest_query, hp]
  · simp [shopify_rest_query, hp, hnav]
  · simp only [shopify_rest_query, hp, from_str_jsonToString]

/-- C2 witness: the three error shapes on concrete attempts — an
unreadable body, the body `not json`, and scenario B's body
`\x7b"products":[]\x7d` with path `products.0` (the navigation failure
carries the parsed tree rendered back to text). -/
theorem claim_C2_witness :
    shopify_rest_query decodeProduct .bodyError none = .error .ResponseBroken ∧
    shopify_rest_query decodeProduct (.body "not json") none =
      .error (.JsonParseError "expected value") ∧
    shopify_rest_query decodeProduct (.body "\x7b\"products\":[]\x7d")
      (some [.Key "products", .Index 0]) =
      .error (.NotWantedJsonFormat "\x7b\"products\":[]\x7d") := by
  refine ⟨?_, ?_, ?_⟩
  · exact (claim_C2 Product decodeProduct "x" [] "e" .null).2.1
  · exact (claim_C2 Product decodeProduct "not json" [] "expected value" .null).2.2.1
      (by rfl) none
  · exact (claim_C2 Product decodeProduct "\x7b\"products\":[]\x7d"
      [.Key "products", .Index 0] "e" (.obj [("products", .arr [])])).2.2.2.1
      (by rfl) (by rfl)

/-- C5: scenario A end to end — descriptor Get("products.json"), path
`products.0`, target type `Product`, canned body
`\x7b"products":[\x7b"id":1,"title":"Hello"\x7d]\x7d`: the fetch returns
the decoded product with id 1 and title "Hello". -/
theorem claim_C5 :
    rest_query decodeProduct
      (fun _ => .body "\x7b\"products\":[\x7b\"id\":1,\"title\":\"Hello\"\x7d]\x7d")
      (some [.Key "products", .Index 0]) = .ok ⟨1, "Hello"⟩ := by
  rfl

/-- C8: the outcome of `rest_query` is a deterministic function of the
decoder, the extraction path and the transport's responses: transports
that answer identically on every attempt produce identical results (the
embedding is a pure function — the pipeline keeps no state across
calls). -/
theorem claim_C8 (R : Type) (dec : Json → Except String R)
    (tr tr' : Nat → TransportOutcome)
    (json_finder : Option (List ReadJsonTreeSteps))
    (h : ∀ a, tr a = tr' a) :
    rest_query dec tr json_finder = rest_query dec tr' json_finder := by
  rw [funext h]

/-- C8 witness: two syntactically different but pointwise equal canned
transports give the same result. -/
theorem claim_C8_witness :
    rest_query decodeProduct (fun _ => .body "1") none =
      rest_query decodeProduct (fun _ => .body (String.mk ['1'])) none :=
  claim_C8 Product decodeProduct _ _ none (fun _ => rfl)

/-- C9: `NotWantedJsonFormat` can only arise from a failed navigation
(carrying the pre-navigation tree rendered to text) or from the final
typed decode (carrying the narrowed tree rendered to text) — never from
the re-encode step, whose serializer is total on parsed values. -/
theorem claim_C9 (R : Type) (dec : Json → Except String R)
    (transport : TransportOutcome) (json_finder : Option (List ReadJsonTreeSteps))
    (s : String)
    (h : shopify_rest_query dec transport json_finder =
      .error (.NotWantedJsonFormat s)) :
    (∃ bodyText json finder, transport = .body bodyText ∧
      parseJson bodyText = .ok json ∧ json_finder = some finder ∧
      read_json_tree json finder = .error .NotFound ∧ s = jsonToString json) ∨
    (∃ bodyText json narrowed err, transport = .body bodyText ∧
      parseJson bodyText = .ok json ∧
      (match json_finder with
       | some finder => read_json_tree json finder
       | none => Except.ok json) = .ok narrowed ∧
      dec narrowed = .error err ∧ s = jsonToString narrowed) := by
  cases transport with
  | sendError msg => simp [shopify_rest_query] at h
  | bodyError => simp [shopify_rest_query] at h
  | body bodyText =>
    cases hp : parseJson bodyText with
    | error e =>
      have heq : shopify_rest_query dec (.body bodyText) json_finder =
          .error (.JsonParseError e) := by simp [shopify_rest_query, hp]
      rw [heq] at h
      simp at h
    | ok j =>
      cases json_finder with
      | none =>
        cases hd : dec j with
        | ok v =>
          have heq : shopify_rest_query dec (.body bodyText) none = .ok v := by
            simp [shopify_rest_query, hp, from_str_jsonToString, hd]
          rw [heq] at h
          simp at h
        | error err =>
          have heq : shopify_rest_query dec (.body bodyText) none =
              .error (.NotWantedJsonFormat (jsonToString j)) := by
            simp [shopify_rest_query, hp, from_str_jsonToString, hd]
          rw [heq] at h
          simp only [Except.error.injEq, ShopifyAPIError.NotWantedJsonFormat.injEq] at h
          subst h
          exact Or.inr ⟨bodyText, j, j, err, rfl, hp, rfl, hd, rfl⟩
      | some finder =>
        cases hnav : read_json_tree j finder with
        | error navErr =>
          cases navErr
          have heq : shopify_rest_query dec (.body bodyText) (some finder) =
              .error (.NotWantedJsonFormat (jsonToString j)) := by
            simp [shopify_rest_query, hp, hnav]
          rw [heq] at h
          simp only [Except.error.injEq, ShopifyAPIError.NotWantedJsonFormat.injEq] at h
          subst h
          exact Or.inl ⟨bodyText, j, finder, rfl, hp, rfl, hnav, rfl⟩
        | ok narrowed =>
          cases hd : dec narrowed with
          | ok v =>
            have heq : shopify_rest_query dec (.body bodyText) (some finder) = .ok v := by
              simp [shopify_rest_query, hp, hnav, from_str_jsonToString, hd]
            rw [heq] at h
            simp at h
          | error err =>
            have heq : shopify_rest_query dec (.body bodyText) (some finder) =
                .error (.NotWantedJsonFormat (jsonToString narrowed)) := by
              simp [shopify_rest_query, hp, hnav, from_str_jsonToString, hd]
            rw [heq] at h
            simp only [Except.error.injEq,
              ShopifyAPIError.NotWantedJsonFormat.injEq] at h
            subst h
            exact Or.inr ⟨bodyText, j, narrowed, err, rfl, hp, hnav, hd, rfl⟩

/-- C9 witness: on the body `\x7b\x7d` with no extraction path and the
`Product` decoder, the pipeline's `NotWantedJsonFormat` comes from the
final typed decode. -/
theorem claim_C9_witness :
    (∃ bodyText json finder, TransportOutcome.body "\x7b\x7d" = .body bodyText ∧
      parseJson bodyText = .ok json ∧
      (none : Option (List ReadJsonTreeSteps)) = some finder ∧
      read_json_tree json finder = .error .NotFound ∧
      "\x7b\x7d" = jsonToString json) ∨
    (∃ bodyText json narrowed err, TransportOutcome.body "\x7b\x7d" = .body bodyText ∧
      parseJson bodyText = .ok json ∧
      (match (none : Option (List ReadJsonTreeSteps)) with
       | some finder => read_json_tree json finder
       | none => Except.ok json) = .ok narrowed ∧
      decodeProduct narrowed = .error err ∧ "\x7b\x7d" = jsonToString narrowed) :=
  claim_C9 Product decodeProduct (.body "\x7b\x7d") none "\x7b\x7d" (by rfl)

/-- C10: the header-construction prologue panics (an `unwrap` of a failed
`HeaderValue` parse) whenever `api_key` is not a valid header value, for
every transport — so before anything is dispatched and without returning
any `ShopifyAPIError`; with a valid `api_key` the two unwraps cannot panic
(the constant `application/json` is always valid) and the pipeline runs. -/
theorem claim_C10 (R : Type) (shopify : Shopify) (dec : Json → Except String R)
    (transport : TransportOutcome)
    (json_finder : Option (List ReadJsonTreeSteps)) :
    is_valid_header_value "application/json" = true ∧
    (is_valid_header_value shopify.api_key = false →
      shopify_rest_query_checked shopify dec transport json_finder = .panics) ∧
    (is_valid_header_value shopify.api_key = true →
      shopify_rest_query_checked shopify dec transport json_finder =
        .value (shopify_rest_query dec transport json_finder)) := by
  refine ⟨by decide, fun h => ?_, fun h => ?_⟩ <;>
    simp [shopify_rest_query_checked, h,
      show is_valid_header_value "application/json" = true from by decide]

/-- C10 witness: an api key containing a newline panics before any
dispatch; an ordinary token does not. -/
theorem claim_C10_witness :
    shopify_rest_query_checked (R := Product) ⟨"bad\nkey"⟩ decodeProduct
      .bodyError none = .panics ∧
    shopify_rest_query_checked (R := Product) ⟨"shpat-token0"⟩ decodeProduct
      .bodyError none = .value (shopify_rest_query decodeProduct .bodyError none) := by
  constructor
  · exact (claim_C10 Product ⟨"bad\nkey"⟩ decodeProduct .bodyError none).2.1 (by decide)
  · exact (claim_C10 Product ⟨"shpat-token0"⟩ decodeProduct .bodyError none).2.2 (by decide)

end ShopifyApi
